import Mathlib

/-!
Shallow embedding of the Pacman simulation engine from
`src/pacman_frontend/src/App.js` (the functions `createWorld`, `update`,
`countPellets`, `wrap` and their helpers).

Conventions of the embedding:
* JavaScript IEEE-754 numbers are modelled as exact rationals (`ℚ`); all
  literals in play (0.12, 0.6, the speeds, dt = 1/60, ...) are taken exactly.
* The callbacks `onScore`, `onLifeLost`, `onClear` are modelled as an ordered
  list of emitted `Event`s returned by `update` (the engine invokes them
  synchronously with constant payloads, so the list records exactly the
  calls made and their order).
* `Math.random()` is modelled by an injected stream `r : ℕ → ℕ` together
  with a call counter: the k-th generator call on an n-element candidate
  list yields the index `r k % n`, which ranges over exactly the values
  `Math.floor(Math.random() * n)` can take when `n > 0`.  For `n = 0` the
  JS expression `all[...]` is `undefined` and `undefined || g.dir` keeps
  the old direction; this is modelled by `Option.getD`.
* A JS array read `maze[cy][cx]` with an out-of-range COLUMN index (but
  an in-range row) yields `undefined`, which fails every `=== code`
  comparison and passes `!== 1`, i.e. it behaves exactly like an `Empty`
  cell.  With an out-of-range ROW index, real JS throws a TypeError
  (`maze[cy]` is `undefined`); the model instead totalizes that read to
  `Cell.empty` as well.  Consequently the universally quantified theorems
  cover every execution the real program completes, and every concrete
  scenario used below is chosen so that each row index its trace reads is
  in range — on those inputs the modelled trace and the real program's
  trace coincide step for step.  An out-of-range array write is modelled
  as a no-op (`List.set` out of range), faithful for everything the
  counting and reading functions can observe.
* `blip` (audio) and `render` (canvas drawing) are presentation glue and
  are not part of the simulation state; they are not modelled.
-/

namespace Pacman

/-- Maze cell codes of the source: 0 empty, 1 wall, 2 pellet, 3 power. -/
inductive Cell
  | empty
  | wall
  | pellet
  | power
deriving DecidableEq

/-- The four movement directions (`'left' | 'right' | 'up' | 'down'`). -/
inductive Dir
  | left
  | right
  | up
  | down
deriving DecidableEq

/-- The player entity (`state.pacman`): continuous position, committed
direction `dir`, desired direction `nx`, scalar speed. -/
structure Pac where
  x : ℚ
  y : ℚ
  dir : Dir
  nx : Dir
  speed : ℚ
deriving DecidableEq

/-- A pursuer (`ghost(name, x, y, dir, speed, color)`); `name` and `color`
are presentation metadata and `speed` is never read by `update` (which
uses `config.GHOST_SPEED`), but the field is kept as in the source. -/
structure Ghost where
  x : ℚ
  y : ℚ
  dir : Dir
  speed : ℚ
deriving DecidableEq

/-- Events emitted through the `onScore` / `onLifeLost` / `onClear`
callbacks during one `update` call, in call order. -/
inductive Event
  | score (delta : ℤ)
  | lifeLost
  | levelClear
deriving DecidableEq

/-- The world state owned by `createWorld`. -/
structure World where
  maze : List (List Cell)
  pellets : ℤ
  powerTimer : ℚ
  pac : Pac
  ghosts : List Ghost
deriving DecidableEq

/-- Accumulator threaded through the `state.ghosts.forEach` loop:
the live `state.pacman` and `state.ghosts` (both mutated in place by the
loop in the source), the events emitted so far, and the number of
`Math.random()` calls made so far. -/
structure GState where
  pac : Pac
  ghosts : List Ghost
  events : List Event
  rk : ℕ
deriving DecidableEq

/-- `config.POWER_DURATION_MS = 6000`. -/
def POWER_DURATION_MS : ℚ := 6000

/-- `config.GHOST_SPEED = 0.9`. -/
def GHOST_SPEED : ℚ := 9 / 10

/-- `config.PACMAN_SPEED = 1.1`. -/
def PACMAN_SPEED : ℚ := 11 / 10

/-- `wrap(v, max) = v < 0 ? max + v : v >= max ? v - max : v`. -/
def wrap (v mx : ℚ) : ℚ :=
  if v < 0 then mx + v else if v ≥ mx then v - mx else v

/-- The same `wrap` function applied to integer arguments (the source is
dynamically typed and uses one function for both; `cellAt` calls it on
`Math.floor` results, which are integers). -/
def wrapI (v mx : ℤ) : ℤ :=
  if v < 0 then mx + v else if v ≥ mx then v - mx else v

/-- `cols = maze[0].length`. -/
def mcols (maze : List (List Cell)) : ℕ := (maze.headD []).length

/-- `rows = maze.length`. -/
def mrows (maze : List (List Cell)) : ℕ := maze.length

/-- Raw double-indexing `maze[cy][cx]`.  An out-of-range column on an
in-range row reads `undefined` in JS, which behaves like `Empty`; an
out-of-range row would throw in JS and is totalized to `Empty` here —
the concrete scenarios below keep all row indices of their traces in
range (see the header comment). -/
def idxCell (maze : List (List Cell)) (cx cy : ℤ) : Cell :=
  if 0 ≤ cx ∧ 0 ≤ cy then (maze.getD cy.toNat []).getD cx.toNat Cell.empty
  else Cell.empty

/-- The in-place cell write `maze[cy][cx] = c`; out of range writes are
no-ops for everything observable (see the header comment). -/
def setCell (maze : List (List Cell)) (cx cy : ℤ) (c : Cell) :
    List (List Cell) :=
  if 0 ≤ cx ∧ 0 ≤ cy then
    maze.set cy.toNat ((maze.getD cy.toNat []).set cx.toNat c)
  else maze

/-- `cellAt(x, y)`: wrap both floor-truncated coordinates, then read the
grid.  All call sites in `update` pass integers, on which `Math.floor` is
the identity. -/
def cellAt (maze : List (List Cell)) (x y : ℤ) : Cell :=
  idxCell maze (wrapI x (mcols maze)) (wrapI y (mrows maze))

/-- `passable(x, y) = cellAt(x, y) !== 1`. -/
def passableB (maze : List (List Cell)) (x y : ℤ) : Bool :=
  decide (cellAt maze x y ≠ Cell.wall)

/-- `dirVec(d)`: the unit vector of a direction. -/
def dirVec : Dir → ℤ × ℤ
  | Dir.left => (-1, 0)
  | Dir.right => (1, 0)
  | Dir.up => (0, -1)
  | Dir.down => (0, 1)

/-- `centerCoord(v) = Math.round(v * 100) / 100`; `Math.round` rounds
half toward positive infinity, exactly as Mathlib `round` does. -/
def centerCoord (v : ℚ) : ℚ := (round (v * 100) : ℤ) / 100

/-- Pellet count of one row, scanning columns `0 ≤ c < C` exactly as the
inner loop of `countPellets` scans `c < maze[0].length`. -/
def rowPelletCount (row : List Cell) (cBound : ℕ) : ℕ :=
  ((List.range cBound).filter
    (fun cc => decide (row.getD cc Cell.empty = Cell.pellet))).length

/-- `countPellets(maze)`: rows `0 ≤ r < maze.length`, columns
`0 ≤ c < maze[0].length`, counting cells `=== 2`. -/
def countPellets (maze : List (List Cell)) : ℕ :=
  ((List.range maze.length).map
    (fun rr => rowPelletCount (maze.getD rr []) (maze.headD []).length)).sum

/-- The player entity built by `createWorld`. -/
def initPac : Pac :=
  { x := 14, y := 23, dir := Dir.left, nx := Dir.left, speed := PACMAN_SPEED }

/-- The pursuer list built by `createWorld`:
blinky, pinky, inky, clyde (names/colors are presentation metadata). -/
def initGhosts : List Ghost :=
  [ { x := 13, y := 14, dir := Dir.left, speed := 1 },
    { x := 14, y := 14, dir := Dir.right, speed := 19 / 20 },
    { x := 12, y := 14, dir := Dir.up, speed := 19 / 20 },
    { x := 15, y := 14, dir := Dir.down, speed := 9 / 10 } ]

/-- `createWorld({maze, ...})`: the freshly constructed world state. -/
def createWorld (maze : List (List Cell)) : World :=
  { maze := maze
    pellets := (countPellets maze : ℤ)
    powerTimer := 0
    pac := initPac
    ghosts := initGhosts }

/-- The tile-center turning step of `update`: if the player is within
0.12 of its tile center on both axes and the tile in the desired
direction is passable, commit `dir := nx`. -/
def pacTurn (maze : List (List Cell)) (p : Pac) : Pac :=
  let gridX : ℤ := ⌊p.x⌋
  let gridY : ℤ := ⌊p.y⌋
  if |p.x - ((gridX : ℚ) + 1/2)| < 12/100 ∧
     |p.y - ((gridY : ℚ) + 1/2)| < 12/100 then
    let nd := dirVec p.nx
    if passableB maze (gridX + nd.1) (gridY + nd.2) then
      { p with dir := p.nx }
    else p
  else p

/-- The player motion block of `update` (lines 364–394): turn, advance by
`dirVec * speed * dt * 6`, and on an impassable destination tile snap to
the current tile center via `centerCoord`. -/
def pacMove (maze : List (List Cell)) (p : Pac) (dt : ℚ) : Pac :=
  let speed := p.speed * dt * 6
  let p1 := pacTurn maze p
  let v := dirVec p1.dir
  let nx := p1.x + (v.1 : ℚ) * speed
  let ny := p1.y + (v.2 : ℚ) * speed
  if passableB maze ⌊nx⌋ ⌊ny⌋ then
    { p1 with x := wrap nx (mcols maze), y := wrap ny (mrows maze) }
  else
    { p1 with
      x := centerCoord ((⌊p.x⌋ : ℚ) + 1/2)
      y := centerCoord ((⌊p.y⌋ : ℚ) + 1/2) }

/-- The pellet-consumption block of `update` (lines 396–413), acting on
the state whose `pac` has already moved.  Note the raw, unwrapped
indices `Math.floor(p.x)`, `Math.floor(p.y)`. -/
def consume (w : World) : World × List Event :=
  let cx : ℤ := ⌊w.pac.x⌋
  let cy : ℤ := ⌊w.pac.y⌋
  let cell := idxCell w.maze cx cy
  if cell = Cell.pellet then
    let pel := w.pellets - 1
    ({ w with maze := setCell w.maze cx cy Cell.empty, pellets := pel },
      [Event.score 10] ++ (if pel ≤ 0 then [Event.levelClear] else []))
  else if cell = Cell.power then
    ({ w with maze := setCell w.maze cx cy Cell.empty,
              powerTimer := POWER_DURATION_MS },
      [Event.score 50])
  else (w, [])

/-- The non-reverse passable candidate directions of a pursuer at tile
`(gx, gy)` with current direction `gdir` (the `choices` filter). -/
def ghostChoices (maze : List (List Cell)) (gdir : Dir) (gx gy : ℤ) :
    List Dir :=
  [Dir.left, Dir.right, Dir.up, Dir.down].filter (fun d =>
    if (d = Dir.left ∧ gdir = Dir.right) ∨ (d = Dir.right ∧ gdir = Dir.left) ∨
       (d = Dir.up ∧ gdir = Dir.down) ∨ (d = Dir.down ∧ gdir = Dir.up) then
      false
    else passableB maze (gx + (dirVec d).1) (gy + (dirVec d).2))

/-- The dead-end fallback candidate list (`all`): every passable
direction, reverse included. -/
def allPassable (maze : List (List Cell)) (gx gy : ℤ) : List Dir :=
  [Dir.left, Dir.right, Dir.up, Dir.down].filter (fun d =>
    passableB maze (gx + (dirVec d).1) (gy + (dirVec d).2))

/-- The greedy-chase `reduce`: keep the first candidate, replace only on
a strictly smaller squared distance from the candidate tile coordinate
`(gx + dx, gy + dy)` to the player's continuous position. -/
def chasePick (px py : ℚ) (gx gy : ℤ) (choices : List Dir) : Option Dir :=
  (choices.foldl (fun best d =>
      let v := dirVec d
      let nx : ℚ := (gx : ℚ) + (v.1 : ℚ)
      let ny : ℚ := (gy : ℚ) + (v.2 : ℚ)
      let dist := (nx - px) ^ 2 + (ny - py) ^ 2
      match best with
      | none => some (d, dist)
      | some b => if dist < b.2 then some (d, dist) else some b)
    none).map Prod.fst

/-- The per-pursuer direction decision of `update` (lines 423–458),
returning the new direction and the updated `Math.random()` call count. -/
def ghostDecide (maze : List (List Cell)) (frightened : Bool) (r : ℕ → ℕ)
    (p : Pac) (g : Ghost) (k : ℕ) : Dir × ℕ :=
  let gx : ℤ := ⌊g.x⌋
  let gy : ℤ := ⌊g.y⌋
  if |g.x - ((gx : ℚ) + 1/2)| < 12/100 ∧
     |g.y - ((gy : ℚ) + 1/2)| < 12/100 then
    let choices := ghostChoices maze g.dir gx gy
    if choices = [] then
      let all := allPassable maze gx gy
      (((all.get? (r k % all.length)).getD g.dir), k + 1)
    else if frightened then
      (((choices.get? (r k % choices.length)).getD g.dir), k + 1)
    else
      ((chasePick p.x p.y gx gy choices).getD g.dir, k)
  else (g.dir, k)

/-- `(config.GHOST_SPEED * (frightened ? 0.7 : 1.0)) * dt * 6`. -/
def gSpeedOf (frightened : Bool) (dt : ℚ) : ℚ :=
  GHOST_SPEED * (if frightened then 7/10 else 1) * dt * 6

/-- Unconditional pursuer advance (lines 460–461): wrap both axes, no
passability check and no snap-back. -/
def ghostMove (maze : List (List Cell)) (gSpeed : ℚ) (d : Dir) (g : Ghost) :
    Ghost :=
  { g with
    x := wrap (g.x + ((dirVec d).1 : ℚ) * gSpeed) (mcols maze)
    y := wrap (g.y + ((dirVec d).2 : ℚ) * gSpeed) (mrows maze)
    dir := d }

/-- The in-loop reset on a Normal-mode capture (line 475):
`gg.x = 13 + (i % 2); gg.y = 14 + (i > 1 ? 1 : 0); gg.dir = 'left'`. -/
def resetGhosts (gs : List Ghost) : List Ghost :=
  gs.mapIdx (fun i gg =>
    { gg with
      x := 13 + ((i % 2 : ℕ) : ℚ)
      y := 14 + (if i > 1 then 1 else 0)
      dir := Dir.left })

/-- One iteration of the `state.ghosts.forEach` loop for index `i`:
decide, move, then resolve player proximity
(`Math.hypot(gx - px, gy - py) < 0.6`, i.e. squared distance `< 0.36`). -/
def ghostStep (maze : List (List Cell)) (frightened : Bool) (dt : ℚ)
    (r : ℕ → ℕ) (st : GState) (i : ℕ) : GState :=
  match st.ghosts.get? i with
  | none => st
  | some g =>
    let dk := ghostDecide maze frightened r st.pac g st.rk
    let g1 := ghostMove maze (gSpeedOf frightened dt) dk.1 g
    let gs1 := st.ghosts.set i g1
    if (g1.x - st.pac.x) ^ 2 + (g1.y - st.pac.y) ^ 2 < 9/25 then
      if frightened then
        { st with
          ghosts := gs1.set i { g1 with x := 13, y := 14, dir := Dir.left }
          events := st.events ++ [Event.score 200]
          rk := dk.2 }
      else
        { pac := { st.pac with x := 14, y := 23, dir := Dir.left,
                               nx := Dir.left }
          ghosts := resetGhosts gs1
          events := st.events ++ [Event.lifeLost]
          rk := dk.2 }
    else
      { st with ghosts := gs1, rk := dk.2 }

/-- The whole `state.ghosts.forEach` loop: fold `ghostStep` over the
indices `0, ..., ghosts.length - 1` starting from zero events and zero
`Math.random()` calls. -/
def ghostPhase (maze : List (List Cell)) (frightened : Bool) (dt : ℚ)
    (r : ℕ → ℕ) (p : Pac) (gs : List Ghost) : GState :=
  (List.range gs.length).foldl (ghostStep maze frightened dt r)
    { pac := p, ghosts := gs, events := [], rk := 0 }

/-- `update(dt)`: player motion, consumption, power decay
(`frightened` is read before the decay, as in the source), then the
pursuer loop.  Returns the new world and the emitted events in order. -/
def update (w : World) (dt : ℚ) (r : ℕ → ℕ) : World × List Event :=
  let p1 := pacMove w.maze w.pac dt
  let wc := consume { w with pac := p1 }
  let w2 := wc.1
  let frightened : Bool := decide (0 < w2.powerTimer)
  let w3 := { w2 with powerTimer := max 0 (w2.powerTimer - dt * 1000) }
  let out := ghostPhase w3.maze frightened dt r w3.pac w3.ghosts
  ({ w3 with pac := out.pac, ghosts := out.ghosts }, wc.2 ++ out.events)

/-- Rectangularity of the supplied grid: every row has the length of row
zero.  This is the construction precondition of the engine (spec §4.1);
`createWorld` is only ever called on the rectangular 28×31 template. -/
def Rect (maze : List (List Cell)) : Prop :=
  ∀ row ∈ maze, row.length = (maze.headD []).length

/-- Worlds reachable by any sequence of `update` calls from a freshly
constructed world on a rectangular template grid. -/
inductive Reachable : World → Prop
  | init (maze : List (List Cell)) : Rect maze → Reachable (createWorld maze)
  | step (w : World) (dt : ℚ) (r : ℕ → ℕ) :
      Reachable w → Reachable (update w dt r).1

/-- The invariant coupling the pellet counter to the grid, together with
the rectangularity of the grid (preserved by `update`). -/
def Inv (w : World) : Prop :=
  w.pellets = (countPellets w.maze : ℤ) ∧ Rect w.maze

/-- Squared Euclidean distance from the candidate tile coordinate
`(gx + dx, gy + dy)` (the truncated corner used by the source's chase
`reduce`) to the player position `(px, py)`. -/
def cornerSqDist (px py : ℚ) (gx gy : ℤ) (d : Dir) : ℚ :=
  (((gx : ℚ) + ((dirVec d).1 : ℚ)) - px) ^ 2 +
  (((gy : ℚ) + ((dirVec d).2 : ℚ)) - py) ^ 2

/-- Modelled from the spec: the squared Euclidean distance from the
candidate's "resulting tile center" to the player's continuous position,
the metric the spec claims the Normal-mode chase minimizes.  This is the
spec-side definition to be compared against `cornerSqDist`, which is what
the source actually computes. -/
def specCenterSqDist (px py : ℚ) (gx gy : ℤ) (d : Dir) : ℚ :=
  (((gx : ℚ) + ((dirVec d).1 : ℚ) + 1/2) - px) ^ 2 +
  (((gy : ℚ) + ((dirVec d).2 : ℚ) + 1/2) - py) ^ 2

/-- `b` is the first element of `l` attaining the minimum of `f` over
`l`: everything before `b` is strictly worse, everything in `l` is no
better.  This is the "ties broken by first-encountered order"
characterization of the chase `reduce`. -/
def isFirstMin (f : Dir → ℚ) (l : List Dir) (b : Dir) : Prop :=
  ∃ l₁ l₂, l = l₁ ++ b :: l₂ ∧ (∀ d ∈ l₁, f b < f d) ∧ ∀ d ∈ l, f b ≤ f d

/-- The accumulator step of the chase `reduce`, abstracted over the
distance function (definitionally equal to the fold body of
`chasePick` at `f := cornerSqDist px py gx gy`). -/
def chaseStep (f : Dir → ℚ) (best : Option (Dir × ℚ)) (d : Dir) :
    Option (Dir × ℚ) :=
  match best with
  | none => some (d, f d)
  | some b => if f d < b.2 then some (d, f d) else some b

/-- Shorthands for writing concrete mazes. -/
def Wc : Cell := Cell.wall

/-- Shorthand for `Cell.empty` in concrete mazes. -/
def Ec : Cell := Cell.empty

/-- The all-zero randomness stream used by the concrete scenarios below
(none of them reaches a random branch, so the stream is never consulted
in a way that matters). -/
def r0 : ℕ → ℕ := fun _ => 0

/-- Default ghost used with `List.getD` in concrete statements. -/
def gDef : Ghost := { x := 0, y := 0, dir := Dir.left, speed := 0 }

/-- A corridor maze: a horizontal corridor in row 1 and a vertical
corridor in column 2, used by the chase-metric scenario. -/
def mazeChase : List (List Cell) :=
  [ [Wc, Wc, Wc, Wc, Wc, Wc, Wc],
    [Wc, Ec, Ec, Ec, Ec, Ec, Wc],
    [Wc, Wc, Ec, Wc, Wc, Wc, Wc],
    [Wc, Wc, Ec, Wc, Wc, Wc, Wc],
    [Wc, Wc, Wc, Wc, Wc, Wc, Wc] ]

/-- Chase scenario: one Normal-mode pursuer exactly at the center of tile
(2,1) heading Up (so Left and Right are the non-reverse passable
candidates), the player below-left at x = 2.3. -/
def wChase : World :=
  { maze := mazeChase, pellets := 0, powerTimer := 0
    pac := { x := 23/10, y := 7/2, dir := Dir.left, nx := Dir.left,
             speed := PACMAN_SPEED }
    ghosts := [ { x := 5/2, y := 3/2, dir := Dir.up, speed := 19/20 } ] }

/-- The player position after the motion phase of `update wChase (1/60)`:
it moves left by 1.1 * (1/60) * 6 = 0.11 tiles. -/
def pacChase : Pac :=
  { x := 219/100, y := 7/2, dir := Dir.left, nx := Dir.left,
    speed := PACMAN_SPEED }

/-- The pursuer of the chase scenario. -/
def gChase : Ghost := { x := 5/2, y := 3/2, dir := Dir.up, speed := 19/20 }

/-- A 7×3 maze whose cell (1,1) is fully walled in (a fully isolated
cell) and whose cell (5,1) hosts the player, far enough from (1,1) that
no capture can occur.  Both entities stay in rows 0–2 throughout one
`update`, so every row index read in the traces below is in range and
the modelled trace coincides with the real program's. -/
def mazeIso : List (List Cell) :=
  [ [Wc, Wc, Wc, Wc, Wc, Wc, Wc],
    [Wc, Ec, Wc, Wc, Wc, Ec, Wc],
    [Wc, Wc, Wc, Wc, Wc, Wc, Wc] ]

/-- Isolated-pursuer scenario: the pursuer sits exactly at the center of
the isolated cell (1,1); the player sits at the center of cell (5,1),
walled in on both sides, so in one step it merely drifts left inside its
own cell and never comes near the pursuer. -/
def wIso : World :=
  { maze := mazeIso, pellets := 0, powerTimer := 0
    pac := { x := 11/2, y := 3/2, dir := Dir.left, nx := Dir.left,
             speed := PACMAN_SPEED }
    ghosts := [ { x := 3/2, y := 3/2, dir := Dir.left, speed := 1 } ] }

/-- Wall-drive scenario: a pursuer at x = 1.05 in the isolated cell,
heading Left into the wall at (0,1); it is not at a decision point, so it
keeps direction Left and advances to x = 0.96, inside the wall tile.  The
player is the same far-away in-range player as in `wIso`. -/
def wDrive : World :=
  { maze := mazeIso, pellets := 0, powerTimer := 0
    pac := { x := 11/2, y := 3/2, dir := Dir.left, nx := Dir.left,
             speed := PACMAN_SPEED }
    ghosts := [ { x := 21/20, y := 3/2, dir := Dir.left, speed := 1 } ] }

/-- A 1×17 all-empty maze (one Empty cell per row, 17 rows): tall enough
that every row index read during the capture scenario (rows 14 and 15)
is in range, while column reads past index 0 behave like Empty exactly
as in real JS. -/
def mazeCap : List (List Cell) :=
  [ [Ec], [Ec], [Ec], [Ec], [Ec], [Ec], [Ec], [Ec], [Ec], [Ec], [Ec],
    [Ec], [Ec], [Ec], [Ec], [Ec], [Ec] ]

/-- Capture scenario: the four `createWorld` pursuers at their spawn
attributes on `mazeCap`; the player starts at (13.2, 14) heading Left,
so after motion (with the x wrap of the 1-column grid) it is at
(12.09, 14) and the first pursuer lands within 0.6 of it in Normal
mode. -/
def wCapture : World :=
  { maze := mazeCap, pellets := 0, powerTimer := 0
    pac := { x := 66/5, y := 14, dir := Dir.left, nx := Dir.left,
             speed := PACMAN_SPEED }
    ghosts := initGhosts }

/-- The player of `wCapture` after the motion phase of
`update wCapture (1/60) r0`. -/
def pacCapture : Pac :=
  { x := 1209/100, y := 14, dir := Dir.left, nx := Dir.left,
    speed := PACMAN_SPEED }

/-- A 16×24 all-pellet template: tall and wide enough that confirming
witnesses whose statements mention `update` on the freshly constructed
world describe a trace whose row reads (rows up to 23) are all in
range. -/
def mazeBig : List (List Cell) :=
  List.replicate 24 (List.replicate 16 Cell.pellet)

/-- Power-cell scenario: a 1×1 grid holding one power cell, the player on
it, power timer already running at 3000 ms. -/
def wPower : World :=
  { maze := [[Cell.power]], pellets := 0, powerTimer := 3000
    pac := { x := 1/2, y := 1/2, dir := Dir.left, nx := Dir.left,
             speed := PACMAN_SPEED }
    ghosts := [] }

/-- Decay scenario for the power timer: empty 1×1 grid, timer at 10 ms,
stepped with dt = 1 s (1000 ms of elapsed time). -/
def wDecay : World :=
  { maze := [[Cell.empty]], pellets := 0, powerTimer := 10
    pac := { x := 1/2, y := 1/2, dir := Dir.left, nx := Dir.left,
             speed := PACMAN_SPEED }
    ghosts := [] }

/-- Consumption scenario: a 1×1 grid holding one pellet, the player on
it. -/
def wEat : World :=
  { maze := [[Cell.pellet]], pellets := 1, powerTimer := 0
    pac := { x := 1/2, y := 1/2, dir := Dir.left, nx := Dir.left,
             speed := PACMAN_SPEED }
    ghosts := [] }

/-! Generic list helper lemmas used to evaluate and reason about the
model.  The indexed-access lemmas are stated with explicit numerals so
that `simp` can apply them to literal scenarios. -/

theorem lget_cons0 {α : Type} (a : α) (l : List α) :
    List.get? (a :: l) 0 = some a := rfl

theorem lget_cons1 {α : Type} (a b : α) (l : List α) :
    List.get? (a :: b :: l) 1 = some b := rfl

theorem lget_cons2 {α : Type} (a b c : α) (l : List α) :
    List.get? (a :: b :: c :: l) 2 = some c := rfl

theorem lget_cons3 {α : Type} (a b c d : α) (l : List α) :
    List.get? (a :: b :: c :: d :: l) 3 = some d := rfl

theorem lset_cons0 {α : Type} (a x : α) (l : List α) :
    List.set (a :: l) 0 x = x :: l := rfl

theorem lset_cons1 {α : Type} (a b x : α) (l : List α) :
    List.set (a :: b :: l) 1 x = a :: x :: l := rfl

theorem lset_cons2 {α : Type} (a b c x : α) (l : List α) :
    List.set (a :: b :: c :: l) 2 x = a :: b :: x :: l := rfl

theorem lset_cons3 {α : Type} (a b c d x : α) (l : List α) :
    List.set (a :: b :: c :: d :: l) 3 x = a :: b :: c :: x :: l := rfl

theorem lmapIdx_four {α β : Type} (f : ℕ → α → β) (a b c d : α) :
    List.mapIdx f [a, b, c, d] = [f 0 a, f 1 b, f 2 c, f 3 d] := rfl

theorem lmapIdx_one {α β : Type} (f : ℕ → α → β) (a : α) :
    List.mapIdx f [a] = [f 0 a] := rfl

theorem lgetD_set {α : Type} (l : List α) (i j : ℕ) (a d : α) :
    (l.set i a).getD j d = if i = j ∧ i < l.length then a else l.getD j d := by
  induction l generalizing i j with
  | nil => simp
  | cons hd tl ih =>
    cases i with
    | zero =>
      cases j with
      | zero => simp
      | succ j => simp [List.getD]
    | succ i =>
      cases j with
      | zero => simp [List.getD]
      | succ j =>
        simpa [List.getD, Nat.succ_lt_succ_iff] using ih i j

theorem lget_set_self {α : Type} (l : List α) (i : ℕ) (a : α)
    (h : i < l.length) : (l.set i a).get? i = some a := by
  induction l generalizing i with
  | nil => simp at h
  | cons hd tl ih =>
    cases i with
    | zero => rfl
    | succ i => simpa using ih i (by simpa using h)

theorem lset_oor {α : Type} (l : List α) (i : ℕ) (a : α)
    (h : l.length ≤ i) : l.set i a = l := by
  induction l generalizing i with
  | nil => rfl
  | cons hd tl ih =>
    cases i with
    | zero => simp at h
    | succ i => simpa using ih i (by simpa using h)

/-! Projection lemmas tying `update` to its phases (all definitional). -/

theorem update_maze (w : World) (dt : ℚ) (r : ℕ → ℕ) :
    (update w dt r).1.maze =
      (consume { w with pac := pacMove w.maze w.pac dt }).1.maze := rfl

theorem update_pellets (w : World) (dt : ℚ) (r : ℕ → ℕ) :
    (update w dt r).1.pellets =
      (consume { w with pac := pacMove w.maze w.pac dt }).1.pellets := rfl

theorem update_powerTimer (w : World) (dt : ℚ) (r : ℕ → ℕ) :
    (update w dt r).1.powerTimer =
      max 0 ((consume { w with pac := pacMove w.maze w.pac dt }).1.powerTimer
        - dt * 1000) := rfl

theorem update_events (w : World) (dt : ℚ) (r : ℕ → ℕ) :
    (update w dt r).2 =
      (consume { w with pac := pacMove w.maze w.pac dt }).2 ++
      (ghostPhase
        (consume { w with pac := pacMove w.maze w.pac dt }).1.maze
        (decide (0 < (consume { w with pac := pacMove w.maze w.pac dt }).1.powerTimer))
        dt r
        (consume { w with pac := pacMove w.maze w.pac dt }).1.pac
        (consume { w with pac := pacMove w.maze w.pac dt }).1.ghosts).events := rfl

/-! Case lemmas for the consumption phase. -/

theorem consume_pellet (w : World)
    (h : idxCell w.maze ⌊w.pac.x⌋ ⌊w.pac.y⌋ = Cell.pellet) :
    consume w =
      ({ w with maze := setCell w.maze ⌊w.pac.x⌋ ⌊w.pac.y⌋ Cell.empty,
                pellets := w.pellets - 1 },
        [Event.score 10] ++
          (if w.pellets - 1 ≤ 0 then [Event.levelClear] else [])) := by
  simp [consume, h]

theorem consume_power (w : World)
    (h : idxCell w.maze ⌊w.pac.x⌋ ⌊w.pac.y⌋ = Cell.power) :
    consume w =
      ({ w with maze := setCell w.maze ⌊w.pac.x⌋ ⌊w.pac.y⌋ Cell.empty,
                powerTimer := POWER_DURATION_MS },
        [Event.score 50]) := by
  simp [consume, h]

theorem consume_plain (w : World)
    (h1 : idxCell w.maze ⌊w.pac.x⌋ ⌊w.pac.y⌋ ≠ Cell.pellet)
    (h2 : idxCell w.maze ⌊w.pac.x⌋ ⌊w.pac.y⌋ ≠ Cell.power) :
    consume w = (w, []) := by
  simp [consume, h1, h2]

/-- C5 counterexample: the claim asserts `wrap(v, max) ∈ [0, max)` for
any real `v`, but the source only folds once: at `v = -30`, `max = 28`
the result is `-2`, outside `[0, 28)`. -/
theorem wrap_range_cex :
    (0 : ℚ) < 28 ∧ wrap (-30) 28 = -2 ∧
      ¬ (0 ≤ wrap (-30) 28 ∧ wrap (-30) 28 < 28) := by
  norm_num [wrap]

/-- C5 (amended): `wrap(v, max)` lands in `[0, max)` provided the input
is within one period, i.e. `-max ≤ v < 2·max` (with `max > 0`); this is
what the single-fold definition guarantees. -/
theorem wrap_range_amended (v mx : ℚ) (hmx : 0 < mx) (h1 : -mx ≤ v)
    (h2 : v < 2 * mx) : 0 ≤ wrap v mx ∧ wrap v mx < mx := by
  unfold wrap
  split_ifs with hv hge <;> constructor <;> linarith

/-- Witness for the amended C5 statement at `v = -5`, `max = 28`. -/
theorem wrap_range_amended_witness :
    0 ≤ wrap (-5) 28 ∧ wrap (-5) 28 < 28 :=
  wrap_range_amended (-5) 28 (by norm_num) (by norm_num) (by norm_num)

/-- C7: when the player's truncated post-motion position is a PowerPellet
cell, the consumption phase sets the power timer to exactly
`POWER_DURATION_MS`, for every prior timer value (the statement
quantifies over the whole world, hence over every prior timer); at the
whole-update granularity the timer then only undergoes this step's decay,
again independently of the previous value. -/
theorem power_set_absolute (w : World) (dt : ℚ) (r : ℕ → ℕ)
    (h : idxCell w.maze ⌊(pacMove w.maze w.pac dt).x⌋
           ⌊(pacMove w.maze w.pac dt).y⌋ = Cell.power) :
    (consume { w with pac := pacMove w.maze w.pac dt }).1.powerTimer =
      POWER_DURATION_MS ∧
    (update w dt r).1.powerTimer = max 0 (POWER_DURATION_MS - dt * 1000) := by
  have hc := consume_power { w with pac := pacMove w.maze w.pac dt } h
  refine ⟨by rw [hc], ?_⟩
  rw [update_powerTimer, hc]

/-- Witness for C7: player standing on the power cell of `wPower`
(prior timer 3000 ms). -/
theorem power_set_absolute_witness :
    (consume { wPower with pac := pacMove wPower.maze wPower.pac (1/60) }).1.powerTimer
      = POWER_DURATION_MS ∧
    (update wPower (1/60) r0).1.powerTimer =
      max 0 (POWER_DURATION_MS - (1/60) * 1000) :=
  power_set_absolute wPower (1/60) r0 (by
    norm_num +decide [pacMove, pacTurn, passableB, cellAt, wrapI, idxCell,
      mcols, mrows, wrap, dirVec, centerCoord, wPower, PACMAN_SPEED,
      abs_lt, Int.toNat_ofNat, List.getD])

/-- C8: the power timer is never negative after an `update`; on a step
that consumes no power cell it equals `max 0 (timer - dt·1000)`, so a
step whose elapsed time reaches the remaining timer leaves exactly 0. -/
theorem power_decay_clamp (w : World) (dt : ℚ) (r : ℕ → ℕ) :
    0 ≤ (update w dt r).1.powerTimer ∧
    (idxCell w.maze ⌊(pacMove w.maze w.pac dt).x⌋
        ⌊(pacMove w.maze w.pac dt).y⌋ ≠ Cell.power →
      (update w dt r).1.powerTimer = max 0 (w.powerTimer - dt * 1000)) ∧
    (idxCell w.maze ⌊(pacMove w.maze w.pac dt).x⌋
        ⌊(pacMove w.maze w.pac dt).y⌋ ≠ Cell.power →
      w.powerTimer ≤ dt * 1000 → (update w dt r).1.powerTimer = 0) := by
  have hkeep : idxCell w.maze ⌊(pacMove w.maze w.pac dt).x⌋
      ⌊(pacMove w.maze w.pac dt).y⌋ ≠ Cell.power →
      (consume { w with pac := pacMove w.maze w.pac dt }).1.powerTimer =
        w.powerTimer := by
    intro h
    by_cases hp : idxCell w.maze ⌊(pacMove w.maze w.pac dt).x⌋
        ⌊(pacMove w.maze w.pac dt).y⌋ = Cell.pellet
    · rw [consume_pellet { w with pac := pacMove w.maze w.pac dt } hp]
    · rw [consume_plain { w with pac := pacMove w.maze w.pac dt } hp h]
  refine ⟨by rw [update_powerTimer]; exact le_max_left _ _, ?_, ?_⟩
  · intro h
    rw [update_powerTimer, hkeep h]
  · intro h hle
    rw [update_powerTimer, hkeep h]
    exact max_eq_left (by linarith)

/-- `centerCoord` is exact on tile centers: rounding `k + 1/2` to two
decimals returns it unchanged. -/
theorem centerCoord_half (k : ℤ) :
    centerCoord ((k : ℚ) + 1/2) = (k : ℚ) + 1/2 := by
  unfold centerCoord
  have h1 : ((k : ℚ) + 1/2) * 100 = ((100 * k + 50 : ℤ) : ℚ) := by
    push_cast; ring
  rw [h1, round_intCast]
  push_cast
  ring

/-- If no direction at all is passable, the non-reverse candidate filter
is empty as well. -/
theorem ghostChoices_empty_of_allPassable_empty (maze : List (List Cell))
    (gdir : Dir) (gx gy : ℤ) (h : allPassable maze gx gy = []) :
    ghostChoices maze gdir gx gy = [] := by
  unfold allPassable at h
  unfold ghostChoices
  rw [List.filter_eq_nil] at h ⊢
  intro d hd
  have hp := h d hd
  by_cases hop : (d = Dir.left ∧ gdir = Dir.right) ∨
      (d = Dir.right ∧ gdir = Dir.left) ∨
      (d = Dir.up ∧ gdir = Dir.down) ∨ (d = Dir.down ∧ gdir = Dir.up)
  · simp [hop]
  · simp only [if_neg hop]
    exact hp

/-- A successful `get?` bounds the index. -/
theorem lget_lt_length {α : Type} (l : List α) (i : ℕ) (a : α)
    (h : l.get? i = some a) : i < l.length := by
  by_contra hge
  push_neg at hge
  rw [List.get?_eq_none.2 hge] at h
  exact Option.noConfusion h

/-- C2 counterexample: a pursuer heading into a wall between decision
points.  After one `update` of `wDrive`, the pursuer's truncated position
is an impassable tile and its position is the advanced coordinate 0.96,
not its tile-center 1.5 — the move was neither cancelled nor snapped, so
the EntityMotion contract does not govern pursuers. -/
theorem motion_contract_cex :
    passableB wDrive.maze ⌊((update wDrive (1/60) r0).1.ghosts.getD 0 gDef).x⌋
        ⌊((update wDrive (1/60) r0).1.ghosts.getD 0 gDef).y⌋ = false ∧
    ((update wDrive (1/60) r0).1.ghosts.getD 0 gDef).x = 24/25 ∧
    ((update wDrive (1/60) r0).1.ghosts.getD 0 gDef).y = 3/2 ∧
    (24/25 : ℚ) ≠ (⌊(wDrive.ghosts.getD 0 gDef).x⌋ : ℚ) + 1/2 := by
  norm_num +decide [update, pacMove, pacTurn, consume, idxCell, setCell,
    cellAt, passableB, wrapI, wrap, dirVec, mcols, mrows, centerCoord,
    ghostStep, ghostDecide, ghostChoices, allPassable, chasePick, ghostMove,
    gSpeedOf, resetGhosts, ghostPhase, POWER_DURATION_MS, GHOST_SPEED,
    PACMAN_SPEED, wDrive, mazeIso, gDef, r0, Wc, Ec,
    show List.range 1 = [0] from rfl, List.foldl_cons, List.foldl_nil,
    List.getD, lget_cons0, lset_cons0, lmapIdx_one, Int.toNat_ofNat, abs_lt]

/-- C2 (amended): the cancel-and-snap step of the EntityMotion contract
governs only the player — on an impassable destination tile `pacMove`
snaps exactly to the current tile center; a pursuer, by contrast,
advances unconditionally: even when its destination tile is impassable
(and no capture occurs), its stored position after the loop iteration is
the advanced, wrapped coordinate. -/
theorem motion_contract_amended :
    (∀ (maze : List (List Cell)) (p : Pac) (dt : ℚ),
      passableB maze
          ⌊(pacTurn maze p).x + ((dirVec (pacTurn maze p).dir).1 : ℚ) * (p.speed * dt * 6)⌋
          ⌊(pacTurn maze p).y + ((dirVec (pacTurn maze p).dir).2 : ℚ) * (p.speed * dt * 6)⌋ = false →
      (pacMove maze p dt).x = (⌊p.x⌋ : ℚ) + 1/2 ∧
      (pacMove maze p dt).y = (⌊p.y⌋ : ℚ) + 1/2) ∧
    (∀ (maze : List (List Cell)) (frightened : Bool) (dt : ℚ) (r : ℕ → ℕ)
        (st : GState) (i : ℕ) (g : Ghost),
      st.ghosts.get? i = some g →
      passableB maze
          ⌊(ghostMove maze (gSpeedOf frightened dt)
              (ghostDecide maze frightened r st.pac g st.rk).1 g).x⌋
          ⌊(ghostMove maze (gSpeedOf frightened dt)
              (ghostDecide maze frightened r st.pac g st.rk).1 g).y⌋ = false →
      ¬ (((ghostMove maze (gSpeedOf frightened dt)
              (ghostDecide maze frightened r st.pac g st.rk).1 g).x - st.pac.x) ^ 2 +
          ((ghostMove maze (gSpeedOf frightened dt)
              (ghostDecide maze frightened r st.pac g st.rk).1 g).y - st.pac.y) ^ 2 < 9/25) →
      (ghostStep maze frightened dt r st i).ghosts.get? i =
        some (ghostMove maze (gSpeedOf frightened dt)
          (ghostDecide maze frightened r st.pac g st.rk).1 g)) := by
  constructor
  · intro maze p dt h
    simp only [pacMove]
    rw [if_neg (by simp [h])]
    exact ⟨centerCoord_half _, centerCoord_half _⟩
  · intro maze frightened dt r st i g hg hpass hnohit
    have hlen := lget_lt_length st.ghosts i g hg
    simp only [ghostStep, hg]
    rw [if_neg hnohit]
    exact lget_set_self st.ghosts i _ hlen

/-- Witness for the amended C2 statement: the blocked player of the
isolated maze snaps to (1.5, 1.5); the wall-driving pursuer of `wDrive`
keeps its advanced position. -/
theorem motion_contract_amended_witness :
    ((pacMove mazeIso
        { x := 21/20, y := 3/2, dir := Dir.left, nx := Dir.left,
          speed := PACMAN_SPEED } (1/60)).x
      = (⌊(21/20 : ℚ)⌋ : ℚ) + 1/2 ∧
     (pacMove mazeIso
        { x := 21/20, y := 3/2, dir := Dir.left, nx := Dir.left,
          speed := PACMAN_SPEED } (1/60)).y
      = (⌊(3/2 : ℚ)⌋ : ℚ) + 1/2) ∧
    (ghostStep mazeIso false (1/60) r0
        { pac := wDrive.pac, ghosts := wDrive.ghosts, events := [], rk := 0 }
        0).ghosts.get? 0 =
      some (ghostMove mazeIso (gSpeedOf false (1/60))
        (ghostDecide mazeIso false r0 wDrive.pac
          { x := 21/20, y := 3/2, dir := Dir.left, speed := 1 } 0).1
        { x := 21/20, y := 3/2, dir := Dir.left, speed := 1 }) := by
  refine ⟨motion_contract_amended.1 mazeIso _ (1/60) ?_,
    motion_contract_amended.2 mazeIso false (1/60) r0 _ 0
      { x := 21/20, y := 3/2, dir := Dir.left, speed := 1 } rfl ?_ ?_⟩
  · norm_num +decide [pacTurn, passableB, cellAt, wrapI, idxCell, mcols,
      mrows, mazeIso, Wc, Ec, dirVec, PACMAN_SPEED, abs_lt, Int.toNat_ofNat,
      List.getD]
  · norm_num +decide [ghostMove, ghostDecide, ghostChoices, allPassable,
      chasePick, gSpeedOf, passableB, cellAt, wrapI, idxCell, mcols, mrows,
      mazeIso, wDrive, Wc, Ec, dirVec, GHOST_SPEED, PACMAN_SPEED, wrap,
      abs_lt, Int.toNat_ofNat, List.getD]
  · norm_num +decide [ghostMove, ghostDecide, ghostChoices, allPassable,
      chasePick, gSpeedOf, passableB, cellAt, wrapI, idxCell, mcols, mrows,
      mazeIso, wDrive, Wc, Ec, dirVec, GHOST_SPEED, PACMAN_SPEED, wrap,
      abs_lt, Int.toNat_ofNat, List.getD]

/-- C9 counterexample: the pursuer of `wIso` stands at the center of a
cell with no passable neighbor in any direction, yet after one `update`
it has moved (from x = 1.5 to x = 1.41): the code advances it
unconditionally instead of stalling it. -/
theorem isolated_ghost_cex :
    allPassable wIso.maze 1 1 = [] ∧
    (wIso.ghosts.getD 0 gDef).x = 3/2 ∧
    ((update wIso (1/60) r0).1.ghosts.getD 0 gDef).x = 141/100 ∧
    ((update wIso (1/60) r0).1.ghosts.getD 0 gDef).x ≠
      (wIso.ghosts.getD 0 gDef).x := by
  norm_num +decide [update, pacMove, pacTurn, consume, idxCell, setCell,
    cellAt, passableB, wrapI, wrap, dirVec, mcols, mrows, centerCoord,
    ghostStep, ghostDecide, ghostChoices, allPassable, chasePick, ghostMove,
    gSpeedOf, resetGhosts, ghostPhase, POWER_DURATION_MS, GHOST_SPEED,
    PACMAN_SPEED, wIso, mazeIso, gDef, r0, Wc, Ec,
    show List.range 1 = [0] from rfl, List.foldl_cons, List.foldl_nil,
    List.getD, lget_cons0, lset_cons0, lmapIdx_one, Int.toNat_ofNat, abs_lt]

/-- C9 (amended): a pursuer at a decision point of a fully isolated cell
keeps its current direction (the dead-end fallback finds no candidate and
`undefined || g.dir` keeps the direction; no exception is raised), but it
still advances by `dirVec · speed · dt · 6` that step instead of
stalling. -/
theorem isolated_ghost_amended (maze : List (List Cell)) (frightened : Bool)
    (dt : ℚ) (r : ℕ → ℕ) (st : GState) (i : ℕ) (g : Ghost)
    (hg : st.ghosts.get? i = some g)
    (hnc : |g.x - ((⌊g.x⌋ : ℚ) + 1/2)| < 12/100 ∧
           |g.y - ((⌊g.y⌋ : ℚ) + 1/2)| < 12/100)
    (hiso : allPassable maze ⌊g.x⌋ ⌊g.y⌋ = [])
    (hnohit : ¬ (((ghostMove maze (gSpeedOf frightened dt) g.dir g).x - st.pac.x) ^ 2 +
        ((ghostMove maze (gSpeedOf frightened dt) g.dir g).y - st.pac.y) ^ 2 < 9/25)) :
    (ghostDecide maze frightened r st.pac g st.rk).1 = g.dir ∧
    (ghostStep maze frightened dt r st i).ghosts.get? i =
      some (ghostMove maze (gSpeedOf frightened dt) g.dir g) := by
  have hch := ghostChoices_empty_of_allPassable_empty maze g.dir ⌊g.x⌋ ⌊g.y⌋ hiso
  have hdec : ghostDecide maze frightened r st.pac g st.rk = (g.dir, st.rk + 1) := by
    unfold ghostDecide
    rw [if_pos hnc, if_pos hch]
    simp [hiso]
  have hlen := lget_lt_length st.ghosts i g hg
  refine ⟨by rw [hdec], ?_⟩
  simp only [ghostStep, hg, hdec]
  rw [if_neg hnohit]
  exact lget_set_self st.ghosts i _ hlen

/-- Witness for the amended C9 statement on the isolated-cell scenario. -/
theorem isolated_ghost_amended_witness :
    (ghostDecide mazeIso false r0 wIso.pac
      { x := 3/2, y := 3/2, dir := Dir.left, speed := 1 } 0).1 = Dir.left ∧
    (ghostStep mazeIso false (1/60) r0
        { pac := wIso.pac, ghosts := wIso.ghosts, events := [], rk := 0 }
        0).ghosts.get? 0 =
      some (ghostMove mazeIso (gSpeedOf false (1/60)) Dir.left
        { x := 3/2, y := 3/2, dir := Dir.left, speed := 1 }) :=
  isolated_ghost_amended mazeIso false (1/60) r0
    { pac := wIso.pac, ghosts := wIso.ghosts, events := [], rk := 0 } 0
    { x := 3/2, y := 3/2, dir := Dir.left, speed := 1 } rfl
    (by norm_num [abs_lt])
    (by norm_num +decide [allPassable, passableB, cellAt, wrapI, idxCell,
      mcols, mrows, mazeIso, Wc, Ec, dirVec, Int.toNat_ofNat, List.getD])
    (by norm_num +decide [ghostMove, gSpeedOf, wrap, dirVec, mcols, mrows,
      mazeIso, wIso, Wc, Ec, GHOST_SPEED, PACMAN_SPEED, Int.toNat_ofNat,
      List.getD, abs_lt])

/-- `chasePick` is the fold of `chaseStep` over the corner-distance
function (definitional). -/
theorem chasePick_eq (px py : ℚ) (gx gy : ℤ) (l : List Dir) :
    chasePick px py gx gy l =
      (l.foldl (chaseStep (cornerSqDist px py gx gy)) none).map Prod.fst := rfl

/-- The chase fold started at a candidate `b0` returns the first minimum
of `f` over `b0 :: l` (replacement only on a strictly smaller value). -/
theorem chaseFold_first_min (f : Dir → ℚ) :
    ∀ (l : List Dir) (b0 : Dir),
      ∃ b, l.foldl (chaseStep f) (some (b0, f b0)) = some (b, f b) ∧
        isFirstMin f (b0 :: l) b := by
  intro l
  induction l with
  | nil =>
    intro b0
    refine ⟨b0, rfl, [], [], rfl, by simp, ?_⟩
    intro d hd
    rw [List.mem_singleton] at hd
    subst hd
    exact le_refl _
  | cons d t ih =>
    intro b0
    rw [List.foldl_cons]
    by_cases hlt : f d < f b0
    · have hstep : chaseStep f (some (b0, f b0)) d = some (d, f d) := by
        simp [chaseStep, hlt]
      rw [hstep]
      obtain ⟨b, hb, l₁, l₂, hsplit, hstrict, hmin⟩ := ih d
      refine ⟨b, hb, b0 :: l₁, l₂, by rw [List.cons_append, ← hsplit], ?_, ?_⟩
      · intro x hx
        rcases List.mem_cons.1 hx with hx0 | hx1
        · subst hx0
          exact lt_of_le_of_lt (hmin d (by simp)) hlt
        · exact hstrict x hx1
      · intro x hx
        rcases List.mem_cons.1 hx with hx0 | hx1
        · subst hx0
          exact le_of_lt (lt_of_le_of_lt (hmin d (by simp)) hlt)
        · exact hmin x hx1
    · have hstep : chaseStep f (some (b0, f b0)) d = some (b0, f b0) := by
        simp [chaseStep, hlt]
      rw [hstep]
      obtain ⟨b, hb, l₁, l₂, hsplit, hstrict, hmin⟩ := ih b0
      cases l₁ with
      | nil =>
        rw [List.nil_append] at hsplit
        injection hsplit with h1 h2
        subst h1
        subst h2
        refine ⟨_, hb, [], d :: t, rfl, by simp, ?_⟩
        intro x hx
        rcases List.mem_cons.1 hx with hx0 | hx1
        · subst hx0
          exact le_refl _
        · rcases List.mem_cons.1 hx1 with hxd | hxt
          · subst hxd
            exact not_lt.1 hlt
          · exact hmin x (List.mem_cons_of_mem _ hxt)
      | cons h₁ t₁ =>
        rw [List.cons_append] at hsplit
        injection hsplit with h1 h2
        subst h1
        have hb0 : f b < f b0 := hstrict b0 (by simp)
        refine ⟨b, hb, b0 :: d :: t₁, l₂, by simp [h2], ?_, ?_⟩
        · intro x hx
          rcases List.mem_cons.1 hx with hx0 | hx1
          · subst hx0
            exact hb0
          · rcases List.mem_cons.1 hx1 with hxd | hxt
            · subst hxd
              exact lt_of_lt_of_le hb0 (not_lt.1 hlt)
            · exact hstrict x (List.mem_cons_of_mem _ hxt)
        · intro x hx
          rcases List.mem_cons.1 hx with hx0 | hx1
          · subst hx0
            exact le_of_lt hb0
          · rcases List.mem_cons.1 hx1 with hxd | hxt
            · subst hxd
              exact le_trans (le_of_lt hb0) (not_lt.1 hlt)
            · exact hmin x (List.mem_cons_of_mem _ hxt)

/-- On a nonempty candidate list, the chase `reduce` returns the first
corner-distance minimum. -/
theorem chasePick_first_min (px py : ℚ) (gx gy : ℤ) (l : List Dir)
    (hl : l ≠ []) :
    ∃ b, chasePick px py gx gy l = some b ∧
      isFirstMin (cornerSqDist px py gx gy) l b := by
  cases l with
  | nil => exact absurd rfl hl
  | cons d t =>
    rw [chasePick_eq, List.foldl_cons]
    have hstep : chaseStep (cornerSqDist px py gx gy) none d =
        some (d, cornerSqDist px py gx gy d) := rfl
    rw [hstep]
    obtain ⟨b, hb, hfm⟩ := chaseFold_first_min (cornerSqDist px py gx gy) t d
    exact ⟨b, by rw [hb]; rfl, hfm⟩

/-- C3 counterexample: in the `wChase` scenario the Normal-mode pursuer
at the decision point (2,1) commits Right, although the spec's metric —
squared distance from the resulting tile CENTER to the player — ranks the
candidate Left strictly better.  The code minimizes the distance from the
tile's truncated corner coordinate, not from its center. -/
theorem chase_center_cex :
    ((update wChase (1/60) r0).1.ghosts.getD 0 gDef).dir = Dir.right ∧
    (update wChase (1/60) r0).1.pac = pacChase ∧
    Dir.left ∈ ghostChoices wChase.maze Dir.up 2 1 ∧
    specCenterSqDist pacChase.x pacChase.y 2 1 Dir.left <
      specCenterSqDist pacChase.x pacChase.y 2 1 Dir.right := by
  norm_num +decide [update, pacMove, pacTurn, consume, idxCell, setCell,
    cellAt, passableB, wrapI, wrap, dirVec, mcols, mrows, centerCoord,
    ghostStep, ghostDecide, ghostChoices, allPassable, chasePick, ghostMove,
    gSpeedOf, resetGhosts, ghostPhase, POWER_DURATION_MS, GHOST_SPEED,
    PACMAN_SPEED, wChase, mazeChase, pacChase, gDef, r0, Wc, Ec,
    specCenterSqDist, show List.range 1 = [0] from rfl, List.foldl_cons,
    List.foldl_nil, List.getD, lget_cons0, lset_cons0, lmapIdx_one,
    Int.toNat_ofNat, abs_lt]

/-- C3 (amended): at a Normal-mode decision point with a nonempty
non-reverse passable candidate set, the pursuer commits the first
candidate (in the fixed order Left, Right, Up, Down surviving the
filter) that minimizes the squared Euclidean distance from the candidate
tile's truncated coordinate `(⌊gx⌋+dx, ⌊gy⌋+dy)` — the tile corner, not
the tile center — to the player's continuous position, consuming no
randomness. -/
theorem chase_corner_argmin (maze : List (List Cell)) (r : ℕ → ℕ) (p : Pac)
    (g : Ghost) (k : ℕ)
    (hnc : |g.x - ((⌊g.x⌋ : ℚ) + 1/2)| < 12/100 ∧
           |g.y - ((⌊g.y⌋ : ℚ) + 1/2)| < 12/100)
    (hch : ghostChoices maze g.dir ⌊g.x⌋ ⌊g.y⌋ ≠ []) :
    (ghostDecide maze false r p g k).2 = k ∧
    isFirstMin (cornerSqDist p.x p.y ⌊g.x⌋ ⌊g.y⌋)
      (ghostChoices maze g.dir ⌊g.x⌋ ⌊g.y⌋)
      (ghostDecide maze false r p g k).1 := by
  obtain ⟨b, hb, hfm⟩ := chasePick_first_min p.x p.y ⌊g.x⌋ ⌊g.y⌋ _ hch
  have hdec : ghostDecide maze false r p g k = (b, k) := by
    unfold ghostDecide
    rw [if_pos hnc, if_neg hch]
    simp [hb]
  rw [hdec]
  exact ⟨rfl, hfm⟩

/-- Witness for the amended C3 statement on the `wChase` decision. -/
theorem chase_corner_argmin_witness :
    (ghostDecide mazeChase false r0 pacChase gChase 0).2 = 0 ∧
    isFirstMin (cornerSqDist pacChase.x pacChase.y ⌊gChase.x⌋ ⌊gChase.y⌋)
      (ghostChoices mazeChase gChase.dir ⌊gChase.x⌋ ⌊gChase.y⌋)
      (ghostDecide mazeChase false r0 pacChase gChase 0).1 :=
  chase_corner_argmin mazeChase r0 pacChase gChase 0
    (by norm_num [gChase, abs_lt])
    (by norm_num +decide [ghostChoices, passableB, cellAt, wrapI, idxCell,
      mcols, mrows, mazeChase, Wc, Ec, dirVec, gChase, Int.toNat_ofNat,
      List.getD])

/-- `getD` past the end returns the default. -/
theorem lgetD_oor {α : Type} (l : List α) (i : ℕ) (d : α)
    (h : l.length ≤ i) : l.getD i d = d := by
  induction l generalizing i with
  | nil => cases i <;> rfl
  | cons hd tl ih =>
    cases i with
    | zero => simp at h
    | succ i => simpa [List.getD] using ih i (by simpa using h)

/-- A cell write at `(a, b)` leaves every other coordinate unchanged. -/
theorem idxCell_setCell_other (m : List (List Cell)) (a b : ℤ) (v : Cell)
    (x y : ℤ) (hne : x ≠ a ∨ y ≠ b) :
    idxCell (setCell m a b v) x y = idxCell m x y := by
  by_cases hab : 0 ≤ a ∧ 0 ≤ b
  · rw [setCell, if_pos hab]
    unfold idxCell
    by_cases hxy : 0 ≤ x ∧ 0 ≤ y
    · rw [if_pos hxy, if_pos hxy, lgetD_set]
      by_cases hby : b.toNat = y.toNat ∧ b.toNat < m.length
      · have hyb : y = b := by omega
        have hxa : x ≠ a := by
          rcases hne with h | h
          · exact h
          · exact absurd hyb h
        rw [if_pos hby, lgetD_set,
          if_neg (by intro hc; exact hxa (by omega)), hby.1]
      · rw [if_neg hby]
    · rw [if_neg hxy, if_neg hxy]
  · rw [setCell, if_neg hab]

/-- A cell write at a coordinate that reads as a non-Empty cell (hence a
genuinely in-range coordinate) stores exactly the written value. -/
theorem idxCell_setCell_self (m : List (List Cell)) (a b : ℤ) (v : Cell)
    (h : idxCell m a b ≠ Cell.empty) :
    idxCell (setCell m a b v) a b = v := by
  unfold idxCell at h
  by_cases hab : 0 ≤ a ∧ 0 ≤ b
  · rw [if_pos hab] at h
    have hbl : b.toNat < m.length := by
      by_contra hc
      push_neg at hc
      rw [lgetD_oor m b.toNat [] hc] at h
      exact h rfl
    have hal : a.toNat < (m.getD b.toNat []).length := by
      by_contra hc
      push_neg at hc
      rw [lgetD_oor _ a.toNat Cell.empty hc] at h
      exact h rfl
    rw [setCell, if_pos hab]
    unfold idxCell
    rw [if_pos hab, lgetD_set, if_pos ⟨rfl, hbl⟩, lgetD_set,
      if_pos ⟨rfl, hal⟩]
  · rw [if_neg hab] at h
    exact absurd rfl h

/-- C10: in a single `update`, at most one maze cell changes — the cell
at the player's truncated post-motion position — and the only possible
transitions are Pellet → Empty or PowerPellet → Empty; any cell that
reads differently after the step must be that cell, must have been a
Pellet or PowerPellet, and now reads Empty.  Wall and Empty cells are
never modified, and tiles merely passed over are not consumed. -/
theorem update_frame_effect (w : World) (dt : ℚ) (r : ℕ → ℕ) (cx cy : ℤ)
    (hch : idxCell (update w dt r).1.maze cx cy ≠ idxCell w.maze cx cy) :
    cx = ⌊(pacMove w.maze w.pac dt).x⌋ ∧ cy = ⌊(pacMove w.maze w.pac dt).y⌋ ∧
    (idxCell w.maze cx cy = Cell.pellet ∨ idxCell w.maze cx cy = Cell.power) ∧
    idxCell (update w dt r).1.maze cx cy = Cell.empty := by
  rw [update_maze] at hch ⊢
  by_cases hp : idxCell w.maze ⌊(pacMove w.maze w.pac dt).x⌋
      ⌊(pacMove w.maze w.pac dt).y⌋ = Cell.pellet
  · have hc := consume_pellet { w with pac := pacMove w.maze w.pac dt } hp
    rw [hc] at hch ⊢
    have hpos : cx = ⌊(pacMove w.maze w.pac dt).x⌋ ∧
        cy = ⌊(pacMove w.maze w.pac dt).y⌋ := by
      by_contra hcon
      rw [not_and_or] at hcon
      exact hch (idxCell_setCell_other w.maze _ _ Cell.empty cx cy hcon)
    obtain ⟨hcx, hcy⟩ := hpos
    subst hcx
    subst hcy
    exact ⟨rfl, rfl, Or.inl hp,
      idxCell_setCell_self w.maze _ _ Cell.empty (by rw [hp]; simp)⟩
  · by_cases hpw : idxCell w.maze ⌊(pacMove w.maze w.pac dt).x⌋
        ⌊(pacMove w.maze w.pac dt).y⌋ = Cell.power
    · have hc := consume_power { w with pac := pacMove w.maze w.pac dt } hpw
      rw [hc] at hch ⊢
      have hpos : cx = ⌊(pacMove w.maze w.pac dt).x⌋ ∧
          cy = ⌊(pacMove w.maze w.pac dt).y⌋ := by
        by_contra hcon
        rw [not_and_or] at hcon
        exact hch (idxCell_setCell_other w.maze _ _ Cell.empty cx cy hcon)
      obtain ⟨hcx, hcy⟩ := hpos
      subst hcx
      subst hcy
      exact ⟨rfl, rfl, Or.inr hpw,
        idxCell_setCell_self w.maze _ _ Cell.empty (by rw [hpw]; simp)⟩
    · rw [consume_plain { w with pac := pacMove w.maze w.pac dt } hp hpw] at hch
      exact absurd rfl hch

/-- Witness for C10: the consumption step of `wEat` changes cell (0,0)
from Pellet to Empty. -/
theorem update_frame_effect_witness :
    (0 : ℤ) = ⌊(pacMove wEat.maze wEat.pac (1/60)).x⌋ ∧
    (0 : ℤ) = ⌊(pacMove wEat.maze wEat.pac (1/60)).y⌋ ∧
    (idxCell wEat.maze 0 0 = Cell.pellet ∨ idxCell wEat.maze 0 0 = Cell.power) ∧
    idxCell (update wEat (1/60) r0).1.maze 0 0 = Cell.empty :=
  update_frame_effect wEat (1/60) r0 0 0 (by
    norm_num +decide [update, pacMove, pacTurn, consume, idxCell, setCell,
      cellAt, passableB, wrapI, wrap, dirVec, mcols, mrows, centerCoord,
      ghostPhase, POWER_DURATION_MS, PACMAN_SPEED, wEat, r0,
      List.foldl_nil, List.getD, Int.toNat_ofNat, abs_lt])

/-- C4 counterexample: on `wCapture` (the four `createWorld` pursuers at
their construction attributes, Normal mode, with every row index of the
trace in range) a capture occurs and a life-lost event is emitted, but
the third pursuer ends the step at direction Left and position
(11.91, 15) instead of its spawn direction Up and spawn coordinates
(12, 14): the Normal reset does not restore the pursuers' spawn
coordinates/directions. -/
theorem capture_reset_cex :
    (update wCapture (1/60) r0).2 = [Event.lifeLost] ∧
    (update wCapture (1/60) r0).1.pac.x = 14 ∧
    (update wCapture (1/60) r0).1.pac.y = 23 ∧
    ((update wCapture (1/60) r0).1.ghosts.getD 2 gDef).dir = Dir.left ∧
    (initGhosts.getD 2 gDef).dir = Dir.up ∧
    ((update wCapture (1/60) r0).1.ghosts.getD 2 gDef).x = 1191/100 ∧
    (initGhosts.getD 2 gDef).x = 12 ∧
    ((update wCapture (1/60) r0).1.ghosts.getD 2 gDef).y = 15 ∧
    (initGhosts.getD 2 gDef).y = 14 ∧
    ((update wCapture (1/60) r0).1.ghosts.getD 2 gDef).dir ≠
      (initGhosts.getD 2 gDef).dir := by
  norm_num +decide [update, pacMove, pacTurn, consume, idxCell, setCell,
    cellAt, passableB, wrapI, wrap, dirVec, mcols, mrows, centerCoord,
    ghostStep, ghostDecide, ghostChoices, allPassable, chasePick, ghostMove,
    gSpeedOf, resetGhosts, ghostPhase, POWER_DURATION_MS, GHOST_SPEED,
    PACMAN_SPEED, wCapture, mazeCap, initGhosts, gDef, r0, Ec,
    show List.range 4 = [0, 1, 2, 3] from rfl, List.foldl_cons,
    List.foldl_nil, List.getD, lget_cons0, lget_cons1, lget_cons2,
    lget_cons3, lset_cons0, lset_cons1, lset_cons2, lset_cons3,
    lmapIdx_four, Int.toNat_ofNat, abs_lt]

/-- C4 (amended): when a pursuer's post-motion squared distance to the
player is below 0.36 (i.e. distance below 0.6): in Frightened mode the
loop iteration emits exactly one capture-score event (+200), leaves the
player untouched and repositions that pursuer to the shared home
coordinate (13, 14) facing Left; in Normal mode it emits exactly one
life-lost event and no score event, resets the player to its spawn
(14, 23, facing Left) and repositions EVERY pursuer to the home-box cell
(13 + i mod 2, 14 + (1 if i > 1 else 0)) facing Left — which is not, in
general, its spawn coordinate/direction. -/
theorem capture_semantics_amended (maze : List (List Cell))
    (frightened : Bool) (dt : ℚ) (r : ℕ → ℕ) (st : GState) (i : ℕ)
    (g : Ghost) (hg : st.ghosts.get? i = some g)
    (hhit : ((ghostMove maze (gSpeedOf frightened dt)
          (ghostDecide maze frightened r st.pac g st.rk).1 g).x - st.pac.x) ^ 2 +
        ((ghostMove maze (gSpeedOf frightened dt)
          (ghostDecide maze frightened r st.pac g st.rk).1 g).y - st.pac.y) ^ 2
        < 9/25) :
    (frightened = true →
      (ghostStep maze frightened dt r st i).events =
        st.events ++ [Event.score 200] ∧
      (ghostStep maze frightened dt r st i).pac = st.pac ∧
      (ghostStep maze frightened dt r st i).ghosts =
        (st.ghosts.set i (ghostMove maze (gSpeedOf frightened dt)
          (ghostDecide maze frightened r st.pac g st.rk).1 g)).set i
          { ghostMove maze (gSpeedOf frightened dt)
              (ghostDecide maze frightened r st.pac g st.rk).1 g with
            x := 13, y := 14, dir := Dir.left }) ∧
    (frightened = false →
      (ghostStep maze frightened dt r st i).events =
        st.events ++ [Event.lifeLost] ∧
      (ghostStep maze frightened dt r st i).pac =
        { st.pac with x := 14, y := 23, dir := Dir.left, nx := Dir.left } ∧
      (ghostStep maze frightened dt r st i).ghosts =
        resetGhosts (st.ghosts.set i (ghostMove maze (gSpeedOf frightened dt)
          (ghostDecide maze frightened r st.pac g st.rk).1 g))) := by
  cases frightened with
  | true =>
    refine ⟨fun _ => ?_, fun hc => Bool.noConfusion hc⟩
    simp only [ghostStep, hg]
    rw [if_pos hhit]
    exact ⟨rfl, rfl, rfl⟩
  | false =>
    refine ⟨fun hc => Bool.noConfusion hc, fun _ => ?_⟩
    simp only [ghostStep, hg]
    rw [if_pos hhit]
    exact ⟨rfl, rfl, rfl⟩

/-- Witness for the amended C4 statement: the Normal-mode capture of the
first pursuer in the `wCapture` scenario. -/
theorem capture_semantics_amended_witness :
    (ghostStep mazeCap false (1/60) r0
        { pac := pacCapture, ghosts := initGhosts, events := [], rk := 0 }
        0).events = [] ++ [Event.lifeLost] ∧
    (ghostStep mazeCap false (1/60) r0
        { pac := pacCapture, ghosts := initGhosts, events := [], rk := 0 }
        0).pac =
      { pacCapture with x := 14, y := 23, dir := Dir.left, nx := Dir.left } ∧
    (ghostStep mazeCap false (1/60) r0
        { pac := pacCapture, ghosts := initGhosts, events := [], rk := 0 }
        0).ghosts =
      resetGhosts (initGhosts.set 0 (ghostMove mazeCap
        (gSpeedOf false (1/60))
        (ghostDecide mazeCap false r0 pacCapture
          { x := 13, y := 14, dir := Dir.left, speed := 1 } 0).1
        { x := 13, y := 14, dir := Dir.left, speed := 1 })) :=
  (capture_semantics_amended mazeCap false (1/60) r0
    { pac := pacCapture, ghosts := initGhosts, events := [], rk := 0 } 0
    { x := 13, y := 14, dir := Dir.left, speed := 1 } rfl
    (by norm_num +decide [ghostMove, ghostDecide, ghostChoices, allPassable,
      chasePick, gSpeedOf, passableB, cellAt, wrapI, idxCell, mcols, mrows,
      wrap, dirVec, pacCapture, mazeCap, Ec, GHOST_SPEED, PACMAN_SPEED,
      Int.toNat_ofNat, List.getD, abs_lt])).2 rfl

/-- An in-range `getD` produces a member of the list. -/
theorem lgetD_mem {α : Type} (l : List α) (i : ℕ) (d : α)
    (h : i < l.length) : l.getD i d ∈ l := by
  induction l generalizing i with
  | nil => simp at h
  | cons hd tl ih =>
    cases i with
    | zero => exact List.mem_cons_self _ _
    | succ i =>
      exact List.mem_cons_of_mem _ (ih i (by simpa using h))

/-- Filtering a singleton counts 1 exactly when the predicate holds. -/
theorem lfilter_single_len {α : Type} (p : α → Bool) (c : α) :
    (List.filter p [c]).length = if p c = true then 1 else 0 := by
  by_cases h : p c = true <;> simp [List.filter_cons, h]

/-- Overwriting index `j` of a row with `Empty` removes exactly one from
the scanned pellet count when the old cell was a scanned pellet. -/
theorem rowPelletCount_set (row : List Cell) (j : ℕ) :
    ∀ C, rowPelletCount (row.set j Cell.empty) C
        + (if j < C ∧ row.getD j Cell.empty = Cell.pellet then 1 else 0)
      = rowPelletCount row C := by
  intro C
  induction C with
  | zero => simp [rowPelletCount]
  | succ n ih =>
    unfold rowPelletCount at ih ⊢
    rw [List.range_succ, List.filter_append, List.filter_append,
      List.length_append, List.length_append, lfilter_single_len,
      lfilter_single_len]
    by_cases hj : j = n
    · subst hj
      have hpre : List.filter
            (fun cc => decide ((row.set j Cell.empty).getD cc Cell.empty = Cell.pellet))
            (List.range j)
          = List.filter (fun cc => decide (row.getD cc Cell.empty = Cell.pellet))
            (List.range j) := by
        apply List.filter_congr
        intro c hc
        rw [List.mem_range] at hc
        rw [lgetD_set, if_neg (show ¬ (j = c ∧ j < row.length) from
          fun hc2 => by omega)]
      rw [hpre]
      by_cases hjr : j < row.length
      · have hnew : (row.set j Cell.empty).getD j Cell.empty = Cell.empty := by
          rw [lgetD_set,
            if_pos (show j = j ∧ j < row.length from ⟨rfl, hjr⟩)]
        rw [hnew]
        rw [if_neg (show ¬ (decide (Cell.empty = Cell.pellet) = true) by decide)]
        by_cases hp : row.getD j Cell.empty = Cell.pellet
        · rw [if_pos (show j < j + 1 ∧ row.getD j Cell.empty = Cell.pellet from
            ⟨by omega, hp⟩)]
          rw [if_pos (decide_eq_true hp)]
        · rw [if_neg (show ¬ (j < j + 1 ∧ row.getD j Cell.empty = Cell.pellet)
            from fun hc => hp hc.2)]
          rw [if_neg (show ¬ (decide (row.getD j Cell.empty = Cell.pellet) = true)
            from fun hc => hp (of_decide_eq_true hc))]
      · have hold : row.getD j Cell.empty = Cell.empty :=
          lgetD_oor row j Cell.empty (by omega)
        have hnew : (row.set j Cell.empty).getD j Cell.empty = Cell.empty := by
          rw [lgetD_set, if_neg (show ¬ (j = j ∧ j < row.length) from
            fun hc => hjr hc.2)]
          exact hold
        rw [hnew, hold]
        rw [if_neg (show ¬ (decide (Cell.empty = Cell.pellet) = true) by decide)]
        rw [if_neg (show ¬ (j < j + 1 ∧ Cell.empty = Cell.pellet) from
          fun hc => Cell.noConfusion hc.2)]
    · have hlast : (row.set j Cell.empty).getD n Cell.empty =
          row.getD n Cell.empty := by
        rw [lgetD_set, if_neg (show ¬ (j = n ∧ j < row.length) from
          fun hc => hj hc.1)]
      rw [hlast]
      have hif : (if j < n + 1 ∧ row.getD j Cell.empty = Cell.pellet
            then 1 else 0)
          = (if j < n ∧ row.getD j Cell.empty = Cell.pellet then 1 else 0) := by
        by_cases hc : row.getD j Cell.empty = Cell.pellet
        · by_cases hlt : j < n
          · rw [if_pos (show j < n + 1 ∧ _ from ⟨by omega, hc⟩),
              if_pos (show j < n ∧ _ from ⟨hlt, hc⟩)]
          · rw [if_neg (show ¬ (j < n + 1 ∧ _) from fun hk =>
                absurd hk.1 (by omega)),
              if_neg (show ¬ (j < n ∧ _) from fun hk => hlt hk.1)]
        · rw [if_neg (show ¬ (j < n + 1 ∧ _) from fun hk => hc hk.2),
            if_neg (show ¬ (j < n ∧ _) from fun hk => hc hk.2)]
      rw [hif]
      omega

/-- The row-set version of `countPellets`: overwriting cell `(j, iR)`
with `Empty` removes exactly one from the total scanned count when the
old cell was a scanned pellet. -/
theorem rowsSum_set (m : List (List Cell)) (iR j : ℕ) (C : ℕ) :
    ∀ R, ((List.range R).map (fun rr =>
          rowPelletCount
            ((m.set iR ((m.getD iR []).set j Cell.empty)).getD rr []) C)).sum
        + (if iR < R ∧ iR < m.length ∧ j < C ∧
              (m.getD iR []).getD j Cell.empty = Cell.pellet then 1 else 0)
      = ((List.range R).map (fun rr => rowPelletCount (m.getD rr []) C)).sum := by
  intro R
  induction R with
  | zero => simp
  | succ n ih =>
    rw [List.range_succ, List.map_append, List.map_append, List.sum_append,
      List.sum_append]
    simp only [List.map_cons, List.map_nil, List.sum_cons, List.sum_nil]
    by_cases hi : iR = n
    · subst hi
      by_cases hlen : iR < m.length
      · have hrow : (m.set iR ((m.getD iR []).set j Cell.empty)).getD iR []
            = (m.getD iR []).set j Cell.empty := by
          rw [lgetD_set, if_pos ⟨rfl, hlen⟩]
        have hpre : ∀ c ∈ List.range iR,
            rowPelletCount
              ((m.set iR ((m.getD iR []).set j Cell.empty)).getD c []) C
            = rowPelletCount (m.getD c []) C := by
          intro c hc
          rw [List.mem_range] at hc
          rw [lgetD_set, if_neg (by omega)]
        rw [List.map_congr_left hpre, hrow]
        have hinner := rowPelletCount_set (m.getD iR []) j C
        by_cases hp : j < C ∧ (m.getD iR []).getD j Cell.empty = Cell.pellet
        · rw [if_pos (show iR < iR + 1 ∧ iR < m.length ∧ j < C ∧
              (m.getD iR []).getD j Cell.empty = Cell.pellet from
            ⟨by omega, hlen, hp.1, hp.2⟩)]
          rw [if_pos hp] at hinner
          omega
        · rw [if_neg (show ¬ (iR < iR + 1 ∧ iR < m.length ∧ j < C ∧
              (m.getD iR []).getD j Cell.empty = Cell.pellet) from
            fun hc => hp ⟨hc.2.2.1, hc.2.2.2⟩)]
          rw [if_neg hp] at hinner
          omega
      · rw [lset_oor m iR _ (by omega)]
        rw [if_neg (show ¬ (iR < iR + 1 ∧ iR < m.length ∧ j < C ∧
            (m.getD iR []).getD j Cell.empty = Cell.pellet) from
          fun hc => hlen hc.2.1)]
        omega
    · have hlast : (m.set iR ((m.getD iR []).set j Cell.empty)).getD n []
          = m.getD n [] := by
        rw [lgetD_set, if_neg (show ¬ (iR = n ∧ iR < m.length) from
          fun hc => hi hc.1)]
      rw [hlast]
      by_cases hcond : iR < n ∧ iR < m.length ∧ j < C ∧
          (m.getD iR []).getD j Cell.empty = Cell.pellet
      · rw [if_pos (show iR < n + 1 ∧ iR < m.length ∧ j < C ∧
            (m.getD iR []).getD j Cell.empty = Cell.pellet from
          ⟨by omega, hcond.2⟩)]
        rw [if_pos hcond] at ih
        omega
      · rw [if_neg (show ¬ (iR < n + 1 ∧ iR < m.length ∧ j < C ∧
            (m.getD iR []).getD j Cell.empty = Cell.pellet) from
          fun hc => hcond ⟨by omega, hc.2⟩)]
        rw [if_neg hcond] at ih
        omega

/-- The first row keeps its length under a row-level cell write. -/
theorem colBound_set (m : List (List Cell)) (i j : ℕ) (v : Cell) :
    ((m.set i ((m.getD i []).set j v)).headD []).length =
      (m.headD []).length := by
  have h0 : ∀ (l : List (List Cell)), l.headD [] = l.getD 0 [] := by
    intro l
    cases l <;> rfl
  rw [h0, h0, lgetD_set]
  by_cases hc : i = 0 ∧ i < m.length
  · rw [if_pos hc, List.length_set, hc.1]
  · rw [if_neg hc]

/-- `countPellets` after `setCell (cx, cy) := Empty`: exactly one less
when the overwritten cell read as a Pellet (for rectangular grids),
unchanged otherwise. -/
theorem countPellets_setCell (m : List (List Cell)) (hrect : Rect m)
    (cx cy : ℤ) :
    countPellets (setCell m cx cy Cell.empty)
      + (if idxCell m cx cy = Cell.pellet then 1 else 0)
    = countPellets m := by
  by_cases hab : 0 ≤ cx ∧ 0 ≤ cy
  · have hset : setCell m cx cy Cell.empty =
        m.set cy.toNat ((m.getD cy.toNat []).set cx.toNat Cell.empty) := by
      rw [setCell, if_pos hab]
    have hidx : idxCell m cx cy =
        (m.getD cy.toNat []).getD cx.toNat Cell.empty := by
      rw [idxCell, if_pos hab]
    rw [hset, hidx]
    unfold countPellets
    rw [List.length_set, colBound_set]
    have hsum := rowsSum_set m cy.toNat cx.toNat (m.headD []).length m.length
    by_cases hp : (m.getD cy.toNat []).getD cx.toNat Cell.empty = Cell.pellet
    · have hylen : cy.toNat < m.length := by
        by_contra hc
        push_neg at hc
        rw [lgetD_oor m _ [] hc] at hp
        rw [lgetD_oor [] _ Cell.empty (by simp)] at hp
        exact Cell.noConfusion hp
      have hxlen : cx.toNat < (m.getD cy.toNat []).length := by
        by_contra hc
        push_neg at hc
        rw [lgetD_oor _ _ Cell.empty hc] at hp
        exact Cell.noConfusion hp
      have hxC : cx.toNat < (m.headD []).length := by
        have := hrect _ (lgetD_mem m cy.toNat [] hylen)
        omega
      rw [if_pos hp]
      rw [if_pos ⟨hylen, hylen, hxC, hp⟩] at hsum
      omega
    · rw [if_neg hp]
      rw [if_neg (fun hc => hp hc.2.2.2)] at hsum
      omega
  · have hset : setCell m cx cy Cell.empty = m := by
      rw [setCell, if_neg hab]
    have hidx : idxCell m cx cy = Cell.empty := by
      rw [idxCell, if_neg hab]
    rw [hset, hidx]
    simp

/-- `setCell` preserves rectangularity. -/
theorem rect_setCell (m : List (List Cell)) (hrect : Rect m) (cx cy : ℤ)
    (v : Cell) : Rect (setCell m cx cy v) := by
  by_cases hab : 0 ≤ cx ∧ 0 ≤ cy
  · rw [setCell, if_pos hab]
    by_cases hlen : cy.toNat < m.length
    · unfold Rect
      simp only [colBound_set]
      intro row hrow
      rcases List.mem_or_eq_of_mem_set hrow with hin | heq
      · exact hrect row hin
      · subst heq
        rw [List.length_set]
        exact hrect _ (lgetD_mem m cy.toNat [] hlen)
    · rw [lset_oor m _ _ (by omega)]
      exact hrect
  · rw [setCell, if_neg hab]
    exact hrect

/-- A coordinate reading as Pellet implies at least one scanned pellet
(for rectangular grids). -/
theorem countPellets_pos (m : List (List Cell)) (hrect : Rect m)
    (cx cy : ℤ) (hp : idxCell m cx cy = Cell.pellet) :
    1 ≤ countPellets m := by
  have hc := countPellets_setCell m hrect cx cy
  rw [if_pos hp] at hc
  omega

/-- The consumption phase preserves the counter/grid invariant. -/
theorem consume_inv (w : World) (h : Inv w) : Inv (consume w).1 := by
  by_cases hp : idxCell w.maze ⌊w.pac.x⌋ ⌊w.pac.y⌋ = Cell.pellet
  · rw [consume_pellet w hp]
    constructor
    · show w.pellets - 1 =
        (countPellets (setCell w.maze ⌊w.pac.x⌋ ⌊w.pac.y⌋ Cell.empty) : ℤ)
      have hc := countPellets_setCell w.maze h.2 ⌊w.pac.x⌋ ⌊w.pac.y⌋
      rw [if_pos hp] at hc
      have h1 := h.1
      omega
    · show Rect (setCell w.maze ⌊w.pac.x⌋ ⌊w.pac.y⌋ Cell.empty)
      exact rect_setCell w.maze h.2 _ _ _
  · by_cases hpw : idxCell w.maze ⌊w.pac.x⌋ ⌊w.pac.y⌋ = Cell.power
    · rw [consume_power w hpw]
      constructor
      · show w.pellets =
          (countPellets (setCell w.maze ⌊w.pac.x⌋ ⌊w.pac.y⌋ Cell.empty) : ℤ)
        have hc := countPellets_setCell w.maze h.2 ⌊w.pac.x⌋ ⌊w.pac.y⌋
        rw [if_neg (by rw [hpw]; simp)] at hc
        have h1 := h.1
        omega
      · show Rect (setCell w.maze ⌊w.pac.x⌋ ⌊w.pac.y⌋ Cell.empty)
        exact rect_setCell w.maze h.2 _ _ _
    · rw [consume_plain w hp hpw]
      exact h

/-- `update` preserves the counter/grid invariant (the pursuer loop
touches neither the grid nor the counter). -/
theorem update_inv (w : World) (dt : ℚ) (r : ℕ → ℕ) (h : Inv w) :
    Inv (update w dt r).1 := by
  have h2 := consume_inv { w with pac := pacMove w.maze w.pac dt } h
  constructor
  · rw [update_pellets, update_maze]
    exact h2.1
  · rw [update_maze]
    exact h2.2

/-- Every reachable world satisfies the counter/grid invariant. -/
theorem inv_of_reachable (w : World) (h : Reachable w) : Inv w := by
  induction h with
  | init maze hrect => exact ⟨rfl, hrect⟩
  | step w dt r hw ih => exact update_inv w dt r ih

/-- C1: after every `update` in every reachable run from a freshly
constructed world (on a rectangular template, the construction
precondition), the pellet counter equals the number of grid cells read as
Pellet by the scan of `countPellets`. -/
theorem pellet_counter_invariant (w : World) (h : Reachable w) :
    w.pellets = (countPellets w.maze : ℤ) :=
  (inv_of_reachable w h).1

/-- Witness for C1 at the freshly constructed one-pellet world. -/
theorem pellet_counter_invariant_witness :
    (createWorld [[Cell.pellet]]).pellets =
      (countPellets (createWorld [[Cell.pellet]]).maze : ℤ) :=
  pellet_counter_invariant (createWorld [[Cell.pellet]])
    (Reachable.init [[Cell.pellet]] (by unfold Rect; decide))

/-- One loop iteration appends nothing, a capture score, or a life-lost
event — never a level-clear event. -/
theorem ghostStep_events_shape (maze : List (List Cell)) (fr : Bool)
    (dt : ℚ) (r : ℕ → ℕ) (st : GState) (i : ℕ) :
    (ghostStep maze fr dt r st i).events = st.events ∨
    (ghostStep maze fr dt r st i).events = st.events ++ [Event.score 200] ∨
    (ghostStep maze fr dt r st i).events = st.events ++ [Event.lifeLost] := by
  unfold ghostStep
  cases hg : st.ghosts.get? i with
  | none => exact Or.inl rfl
  | some g =>
    simp only []
    split_ifs with h1 h2
    · exact Or.inr (Or.inl rfl)
    · exact Or.inr (Or.inr rfl)
    · exact Or.inl rfl

/-- The pursuer loop never emits a level-clear event. -/
theorem ghostPhase_no_clear (maze : List (List Cell)) (fr : Bool) (dt : ℚ)
    (r : ℕ → ℕ) (p : Pac) (gs : List Ghost) :
    Event.levelClear ∉ (ghostPhase maze fr dt r p gs).events := by
  unfold ghostPhase
  have h : ∀ (l : List ℕ) (st : GState), Event.levelClear ∉ st.events →
      Event.levelClear ∉ (l.foldl (ghostStep maze fr dt r) st).events := by
    intro l
    induction l with
    | nil => intro st h; exact h
    | cons a t ih =>
      intro st h
      rw [List.foldl_cons]
      apply ih
      rcases ghostStep_events_shape maze fr dt r st a with he | he | he <;>
        rw [he] <;> simp [List.mem_append, h]
  exact h _ _ (by simp)

/-- C6: in any reachable world, one `update` emits `on_level_clear` iff
its pellet counter transitions from nonzero to zero in that very call;
moreover once the counter is zero it stays zero, so the event fires in
exactly the one `update` call that empties the final pellet and never
again. -/
theorem level_clear_iff (w : World) (dt : ℚ) (r : ℕ → ℕ)
    (h : Reachable w) :
    (Event.levelClear ∈ (update w dt r).2 ↔
      w.pellets ≠ 0 ∧ (update w dt r).1.pellets = 0) ∧
    (w.pellets = 0 → (update w dt r).1.pellets = 0) := by
  have hinv := inv_of_reachable w h
  rw [update_events, update_pellets]
  have hnc := ghostPhase_no_clear
    (consume { w with pac := pacMove w.maze w.pac dt }).1.maze
    (decide (0 < (consume { w with pac := pacMove w.maze w.pac dt }).1.powerTimer))
    dt r
    (consume { w with pac := pacMove w.maze w.pac dt }).1.pac
    (consume { w with pac := pacMove w.maze w.pac dt }).1.ghosts
  by_cases hp : idxCell w.maze ⌊(pacMove w.maze w.pac dt).x⌋
      ⌊(pacMove w.maze w.pac dt).y⌋ = Cell.pellet
  · have hcnt : 1 ≤ countPellets w.maze := countPellets_pos w.maze hinv.2 _ _ hp
    have hpel : 1 ≤ w.pellets := by
      rw [hinv.1]
      exact_mod_cast hcnt
    have hc := consume_pellet { w with pac := pacMove w.maze w.pac dt } hp
    rw [hc] at hnc ⊢
    dsimp only at hnc ⊢
    constructor
    · constructor
      · intro hmem
        rw [List.mem_append] at hmem
        rcases hmem with hmem | hmem
        · rw [List.mem_append] at hmem
          rcases hmem with hmem | hmem
          · simp at hmem
          · by_cases hle : w.pellets - 1 ≤ 0
            · exact ⟨by omega, show w.pellets - 1 = 0 by omega⟩
            · rw [if_neg hle] at hmem
              simp at hmem
        · exact absurd hmem hnc
      · rintro ⟨hne, h0⟩
        have h0' : w.pellets - 1 = 0 := h0
        rw [List.mem_append]
        left
        rw [List.mem_append]
        right
        rw [if_pos (by omega)]
        simp
    · intro h0
      exact absurd h0 (by omega)
  · by_cases hpw : idxCell w.maze ⌊(pacMove w.maze w.pac dt).x⌋
        ⌊(pacMove w.maze w.pac dt).y⌋ = Cell.power
    · have hc := consume_power { w with pac := pacMove w.maze w.pac dt } hpw
      rw [hc] at hnc ⊢
      constructor
      · constructor
        · intro hmem
          rw [List.mem_append] at hmem
          rcases hmem with hmem | hmem
          · simp at hmem
          · exact absurd hmem hnc
        · rintro ⟨hne, h0⟩
          exact absurd h0 hne
      · intro h0
        exact h0
    · have hc := consume_plain { w with pac := pacMove w.maze w.pac dt } hp hpw
      rw [hc] at hnc ⊢
      constructor
      · constructor
        · intro hmem
          rw [List.mem_append] at hmem
          rcases hmem with hmem | hmem
          · simp at hmem
          · exact absurd hmem hnc
        · rintro ⟨hne, h0⟩
          exact absurd h0 hne
      · intro h0
        exact h0

/-- Witness for C6 at the freshly constructed `mazeBig` world (whose
first update is a fully in-range real trace). -/
theorem level_clear_iff_witness :
    (Event.levelClear ∈ (update (createWorld mazeBig) (1/60) r0).2 ↔
      (createWorld mazeBig).pellets ≠ 0 ∧
      (update (createWorld mazeBig) (1/60) r0).1.pellets = 0) ∧
    ((createWorld mazeBig).pellets = 0 →
      (update (createWorld mazeBig) (1/60) r0).1.pellets = 0) :=
  level_clear_iff (createWorld mazeBig) (1/60) r0
    (Reachable.init mazeBig (by unfold Rect mazeBig; decide))

/-- Witness for C8 at `wDecay` (timer 10 ms, dt = 1 s): the timer clamps
to exactly 0. -/
theorem power_decay_clamp_witness :
    0 ≤ (update wDecay 1 r0).1.powerTimer ∧
    (update wDecay 1 r0).1.powerTimer = max 0 (wDecay.powerTimer - 1 * 1000) ∧
    (update wDecay 1 r0).1.powerTimer = 0 := by
  have hnp : idxCell wDecay.maze ⌊(pacMove wDecay.maze wDecay.pac 1).x⌋
      ⌊(pacMove wDecay.maze wDecay.pac 1).y⌋ ≠ Cell.power := by
    norm_num +decide [pacMove, pacTurn, passableB, cellAt, wrapI, idxCell,
      mcols, mrows, wrap, dirVec, centerCoord, wDecay, PACMAN_SPEED,
      abs_lt, Int.toNat_ofNat, List.getD]
  exact ⟨(power_decay_clamp wDecay 1 r0).1,
    (power_decay_clamp wDecay 1 r0).2.1 hnp,
    (power_decay_clamp wDecay 1 r0).2.2 hnp (by norm_num [wDecay])⟩

end Pacman
